import Mathlib

/-! # streamtools: block library and the GetHTTP block

A shallow embedding of `blocks/library.go` (the block-template registry) and of
`st/library/getHTTP.go` (the select loop of the GetHTTP block), with the
properties of the natural-language specification stated over it.

Conventions of the embedding:

* a Go `map[string]V` is an association list with unique keys (`GoMap`);
  assignment `m[k] = v` is `GoMap.set`, lookup `m[k]` is `GoMap.get`;
* a Go `error` is `Option Err` (`none` is `nil`);
* a Go pointer that may be `nil` is an `Option`;
* a run-time panic (index out of range, nil dereference) is the control
  outcome `Control.panic`;
* the loop is run on the events in the order the `select` receives them
  (`Run`), or on channels with waiting communications and a sequence of picks
  of the `select` (`RunSelect`);
* functions of other packages called by the code (`util.ParseString`,
  `jee.Lexer`, `jee.Parser`, `jee.Eval`, `http.NewRequest`, `client.Do`,
  `ioutil.ReadAll`, `json.Unmarshal`) are the fields of a record `Lib`
  passed to the embedding; each returns the pair of results the Go
  function returns.
-/

/-! ## Go maps with string keys -/

/-- A Go `map[string]V`: association list, one entry per key. -/
abbrev GoMap (V : Type) := List (String × V)

namespace GoMap

/-- Lookup `m[k]` with the comma-ok flag folded into `Option`. -/
def get {V : Type} (k : String) : GoMap V → Option V
  | [] => none
  | (k', v) :: m => if k = k' then some v else get k m

/-- Assignment `m[k] = v`: overwrite the entry of `k`, or add one. -/
def set {V : Type} (k : String) (v : V) : GoMap V → GoMap V
  | [] => [(k, v)]
  | (k', v') :: m => if k = k' then (k, v) :: m else (k', v') :: set k v m

/-- The keys of the map. -/
def keys {V : Type} (m : GoMap V) : List String := m.map Prod.fst

end GoMap

/-! ## blocks/library.go -/

namespace blocks

/-- The constructor stored in a template (`Routine`): the four block
routines named by `BuildLibrary`. -/
inductive Routine
  | Ticker
  | Connection
  | ToLog
  | Random
  deriving DecidableEq, Repr

/-- The descriptor `BlockTemplate` as `BuildLibrary` fills it. -/
structure BlockTemplate where
  BlockType : String
  RouteNames : List String
  Routine : Routine
  deriving DecidableEq, Repr

/-- The type `BlockLibrary`, `map[string]*BlockTemplate`. -/
abbrev BlockLibrary := GoMap BlockTemplate

/-- The function `register`: `Library[t.BlockType] = t` on the global
`Library`, passed and returned explicitly. -/
def register (t : BlockTemplate) (Library : BlockLibrary) : BlockLibrary :=
  GoMap.set t.BlockType t Library

/-- The slice `templates` of `BuildLibrary`. -/
def templates : List BlockTemplate :=
  [ { BlockType := "ticker", RouteNames := [], Routine := Routine.Ticker },
    { BlockType := "connection", RouteNames := ["last_seen"], Routine := Routine.Connection },
    { BlockType := "tolog", RouteNames := [], Routine := Routine.ToLog },
    { BlockType := "random", RouteNames := [], Routine := Routine.Random } ]

/-- The function `BuildLibrary` as a transformer of the global `Library`:
the global is first reassigned to a fresh empty map (`make`), then every
template of the list is stored under its `BlockType`. The call of
`log.Println` writes to the log only and is left out. -/
def BuildLibrary (_Library : BlockLibrary) : BlockLibrary :=
  let fresh : BlockLibrary := []
  templates.foldl (fun lib t => GoMap.set t.BlockType t lib) fresh

end blocks

/-! ## st/library/getHTTP.go -/

namespace library

/-- A Go `interface{}` value as carried by messages: the JSON-shaped values. -/
inductive Msg
  | null
  | bool (b : Bool)
  | num (n : Int)
  | str (s : String)
  | arr (xs : List Msg)
  | obj (kvs : List (String × Msg))

/-- A non-nil Go `error`, identified with its message. -/
abbrev Err := String

/-- What one iteration of the loop does to the outside: `b.Error(err)`, a
send on `b.out`, or a send on the reply channel received from `b.queryrule`. -/
inductive Effect
  | error (e : Err)
  | out (m : Msg)
  | reply (ch : Nat) (m : Msg)

/-- How one iteration of the `for` loop ends: the loop goes round again
(`continue` or falling off the end of the `select`), `Run` executes `return`,
or a run-time panic unwinds the goroutine. -/
inductive Control
  | next
  | returned
  | panic
  deriving DecidableEq, Repr

/-- The local variables of `Run` that live across iterations: `tree`, `path`,
`headerString` and `headers`. -/
structure State (Tree : Type) where
  tree : Option Tree
  path : String
  headerString : String
  headers : GoMap String

/-- The values of the locals when `Run` enters its loop: `tree` is nil, the
strings are empty, `headers` is the empty map made by `make`. -/
def State.init (Tree : Type) : State Tree :=
  { tree := none, path := "", headerString := "", headers := [] }

/-- The functions of other packages that `Run` calls. Each field returns what
the Go function returns; a pointer result may be nil (`none`).
`HeaderAdd r k v` is `r.Header.Add(k, v)`. -/
structure Lib (Tokens Tree Request Response : Type) where
  ParseString : Msg → String → String × Option Err
  Lexer : String → Tokens × Option Err
  Parser : Tokens → Option Tree × Option Err
  Eval : Tree → Msg → Msg × Option Err
  NewRequest : String → String → Option Request × Option Err
  HeaderAdd : Request → String → String → Request
  Do : Option Request → Option Response × Option Err
  ReadAll : Response → String × Option Err
  Unmarshal : String → Msg × Option Err

/-- The events the `select` can receive: a message on `b.inrule`, a value on
`b.quit`, a message on `b.in`, a reply channel on `b.queryrule`. -/
inductive Event
  | rule (ruleI : Msg)
  | quit
  | data (msg : Msg)
  | query (ch : Nat)

/-- The result of one iteration: the locals afterwards, the effects in order,
and how the iteration ended. -/
structure Step (Tree : Type) where
  state : State Tree
  effects : List Effect
  ctl : Control

/-- The pieces of a character list between occurrences of `sep`; there is
always one piece more than there are separators. -/
def splitChars (sep : Char) : List Char → List (List Char)
  | [] => [[]]
  | c :: cs =>
    if c = sep then [] :: splitChars sep cs
    else
      match splitChars sep cs with
      | [] => [[c]]
      | w :: ws => (c :: w) :: ws

/-- The call `strings.Split(s, sep)` for a one-character separator. -/
def Split (s : String) (sep : Char) : List String :=
  (splitChars sep s.data).map String.mk

/-- The loop `for _, headerpair := range ... { hh := strings.Split(headerpair, ":");
headers[hh[0]] = hh[1] }`. The flag is true when `hh[1]` is out of range: the
loop panics there, with the assignments of the earlier pairs already made. -/
def headerLoop : List String → GoMap String → GoMap String × Bool
  | [], headers => (headers, false)
  | headerpair :: rest, headers =>
    match Split headerpair ':' with
    | hh0 :: hh1 :: _ => headerLoop rest (GoMap.set hh0 hh1 headers)
    | _ => (headers, true)

/-- The case `ruleI := <-b.inrule` of the `select`. Each assignment to
`path`, `tree` and `headerString` is made when the call returns, before its
error is tested; `token` is local to the case. The variable `err` is never
read by another iteration and is not part of the state. -/
def ruleStep {Tokens Tree Request Response : Type} (lib : Lib Tokens Tree Request Response)
    (st : State Tree) (ruleI : Msg) : Step Tree :=
  match lib.ParseString ruleI "Path" with
  | (path, some err) => ⟨{ st with path := path }, [Effect.error err], Control.next⟩
  | (path, none) =>
    match lib.Lexer path with
    | (_, some err) => ⟨{ st with path := path }, [Effect.error err], Control.next⟩
    | (token, none) =>
      match lib.Parser token with
      | (tree, some err) =>
        ⟨{ st with path := path, tree := tree }, [Effect.error err], Control.next⟩
      | (tree, none) =>
        match lib.ParseString ruleI "Header" with
        | (headerString, some err) =>
          ⟨{ st with path := path, tree := tree, headerString := headerString },
            [Effect.error err], Control.next⟩
        | (headerString, none) =>
          match headerLoop (Split headerString ',') st.headers with
          | (headers, true) =>
            ⟨{ path := path, tree := tree, headerString := headerString, headers := headers },
              [], Control.panic⟩
          | (headers, false) =>
            ⟨{ path := path, tree := tree, headerString := headerString, headers := headers },
              [], Control.next⟩

/-- The loop `for header := range headers { req.Header.Add(header, headers[header]) }`
on a non-nil request. -/
def addHeaders {Tokens Tree Request Response : Type} (lib : Lib Tokens Tree Request Response)
    (headers : GoMap String) (req : Request) : Request :=
  (GoMap.keys headers).foldl
    (fun r header => lib.HeaderAdd r header ((GoMap.get header headers).getD "")) req

/-- The case `msg := <-b.in` of the `select`. The error of `http.NewRequest`
is not tested: the request, nil or not, goes through the header loop, which
dereferences it once per key, and on to `client.Do`. The statement
`defer resp.Body.Close()` dereferences the response where it stands; the
deferred call itself runs when `Run` returns and has no effect here. -/
def dataStep {Tokens Tree Request Response : Type} (lib : Lib Tokens Tree Request Response)
    (st : State Tree) (msg : Msg) : Step Tree :=
  match st.tree with
  | none => ⟨st, [], Control.next⟩
  | some tree =>
    match lib.Eval tree msg with
    | (_, some err) => ⟨st, [Effect.error err], Control.next⟩
    | (Msg.str urlString, none) =>
      match (lib.NewRequest "GET" urlString).1, GoMap.keys st.headers with
      | none, _ :: _ => ⟨st, [], Control.panic⟩
      | req, _ =>
        match lib.Do (req.map (addHeaders lib st.headers)) with
        | (_, some err) => ⟨st, [Effect.error err], Control.next⟩
        | (none, none) => ⟨st, [], Control.panic⟩
        | (some resp, none) =>
          match lib.ReadAll resp with
          | (_, some err) => ⟨st, [Effect.error err], Control.next⟩
          | (body, none) =>
            match lib.Unmarshal body with
            | (_, some _) =>
              ⟨st, [Effect.out (Msg.obj [("data", Msg.str body)])], Control.next⟩
            | (outMsg, none) => ⟨st, [Effect.out outMsg], Control.next⟩
    | (_, none) => ⟨st, [Effect.error "couldn't assert url to a string"], Control.next⟩

/-- The case `MsgChan := <-b.queryrule` of the `select`. -/
def queryStep {Tree : Type} (st : State Tree) (ch : Nat) : Step Tree :=
  ⟨st, [Effect.reply ch (Msg.obj [("Path", Msg.str st.path), ("Header", Msg.str st.headerString)])],
    Control.next⟩

/-- One iteration of the `for { select { ... } }` loop on the event received. -/
def step {Tokens Tree Request Response : Type} (lib : Lib Tokens Tree Request Response)
    (st : State Tree) : Event → Step Tree
  | Event.rule ruleI => ruleStep lib st ruleI
  | Event.quit => ⟨st, [], Control.returned⟩
  | Event.data msg => dataStep lib st msg
  | Event.query ch => queryStep st ch

/-- How a run over a sequence of events stands at its end: still in the loop
waiting for an event, returned from `Run`, or unwound by a panic. -/
inductive Status
  | waiting
  | returned
  | panicked
  deriving DecidableEq, Repr

/-- The outcome of `Run` on a sequence of events: the locals, every effect in
order, the number of events received by the `select`, the status, and the
events that were never received. -/
structure RunResult (Tree : Type) where
  state : State Tree
  effects : List Effect
  received : Nat
  status : Status
  pending : List Event

/-- The method `Run` from given locals, on the events in the order in which
the `select` would deliver them. -/
def Run {Tokens Tree Request Response : Type} (lib : Lib Tokens Tree Request Response) :
    State Tree → List Event → RunResult Tree
  | st, [] => ⟨st, [], 0, Status.waiting, []⟩
  | st, ev :: rest =>
    match step lib st ev with
    | ⟨st1, effs, Control.next⟩ =>
      let r := Run lib st1 rest
      { r with effects := effs ++ r.effects, received := r.received + 1 }
    | ⟨st1, effs, Control.returned⟩ => ⟨st1, effs, 1, Status.returned, rest⟩
    | ⟨st1, effs, Control.panic⟩ => ⟨st1, effs, 1, Status.panicked, rest⟩

/-- The communications that can proceed when the `select` is reached: the
messages waiting on `b.inrule`, whether a value waits on `b.quit` (quit has
been signaled), the messages waiting on `b.in` (the field `inmsg`), and the
reply channels waiting on `b.queryrule`. -/
structure Chans where
  inrule : List Msg
  quit : Bool
  inmsg : List Msg
  queryrule : List Nat

/-- The four cases of the `select`, in the order of the source: `b.inrule`,
`b.quit`, `b.in`, `b.queryrule`. -/
inductive Case
  | inrule
  | quit
  | inmsg
  | queryrule
  deriving DecidableEq, Repr

/-- The receive of one case of the `select`: the event received and the
channels afterwards, or none when nothing waits on the channel of that case,
so that the `select` cannot pick it. The `select` has no `default` and gives
no case priority over another: any case that can proceed may be the one
picked. -/
def receive : Case → Chans → Option (Event × Chans)
  | Case.inrule, ch =>
    match ch.inrule with
    | [] => none
    | ruleI :: ms => some (Event.rule ruleI, { ch with inrule := ms })
  | Case.quit, ch =>
    if ch.quit = true then some (Event.quit, { ch with quit := false }) else none
  | Case.inmsg, ch =>
    match ch.inmsg with
    | [] => none
    | msg :: ms => some (Event.data msg, { ch with inmsg := ms })
  | Case.queryrule, ch =>
    match ch.queryrule with
    | [] => none
    | c :: cs => some (Event.query c, { ch with queryrule := cs })

/-- The outcome of `Run` on given channels: the locals, every effect in
order, the status, and what still waits on the channels. -/
structure SelectResult (Tree : Type) where
  state : State Tree
  effects : List Effect
  status : Status
  chans : Chans

/-- The method `Run` on channels with waiting communications, for a given
sequence of picks of the `select`, one per iteration. The result is none when
a pick names a case that cannot proceed: such a sequence is not an execution
of the `select`. Picks left over after `Run` has returned or panicked are not
looked at. -/
def RunSelect {Tokens Tree Request Response : Type} (lib : Lib Tokens Tree Request Response) :
    State Tree → Chans → List Case → Option (SelectResult Tree)
  | st, ch, [] => some ⟨st, [], Status.waiting, ch⟩
  | st, ch, c :: cs =>
    match receive c ch with
    | none => none
    | some (ev, ch1) =>
      match step lib st ev with
      | ⟨st1, effs, Control.next⟩ =>
        (RunSelect lib st1 ch1 cs).map (fun r => { r with effects := effs ++ r.effects })
      | ⟨st1, effs, Control.returned⟩ => some ⟨st1, effs, Status.returned, ch1⟩
      | ⟨st1, effs, Control.panic⟩ => some ⟨st1, effs, Status.panicked, ch1⟩

end library

/-! ## A stub of the called packages

Small executable stand-ins for the functions of `Lib`, used to run the
embedding on concrete messages. Paths are dot-separated key sequences. -/

namespace library

/-- Modelled from the spec: `util.ParseString` is not among the sources. The
spec has a rule key that is missing or not a string report an error; the
string returned with an error is taken to be empty. -/
def ParseString (ruleI : Msg) (key : String) : String × Option Err :=
  match ruleI with
  | Msg.obj kvs =>
    match kvs.lookup key with
    | some (Msg.str s) => (s, none)
    | some _ => ("", some "Key's value was not a string")
    | none => ("", some "Key was not in rule")
  | _ => ("", some "rule was not a map")

/-- Stub lexer: the dot-separated pieces of the source; a source containing a
blank is rejected. -/
def stubLexer (path : String) : List String × Option Err :=
  if ' ' ∈ path.data then ([], some "lexer error") else (Split path '.', none)

/-- Stub parser: a token sequence with an empty piece is rejected, with a nil
tree. -/
def stubParser (token : List String) : Option (List String) × Option Err :=
  if "" ∈ token then (none, some "parser error") else (some token, none)

/-- Stub evaluator: follow the keys through nested objects; a missing key
yields nil, a key applied to a non-object is an error. -/
def stubEval : List String → Msg → Msg × Option Err
  | [], m => (m, none)
  | k :: ks, Msg.obj kvs =>
    match kvs.lookup k with
    | some m => stubEval ks m
    | none => (Msg.null, none)
  | _ :: _, _ => (Msg.null, some "eval error")

/-- Stub request: the URL and the header fields added so far. -/
structure StubRequest where
  url : String
  header : List (String × String)

/-- Stub of `http.NewRequest`: a URL containing a blank cannot be parsed. -/
def stubNewRequest (_method : String) (url : String) : Option StubRequest × Option Err :=
  if ' ' ∈ url.data then (none, some "invalid URL") else (some ⟨url, []⟩, none)

/-- Stub of `client.Do`: two URLs are served, every other request fails. The
response is its body. -/
def stubDo : Option StubRequest → Option String × Option Err
  | none => (none, some "nil request")
  | some req =>
    if req.url = "http://example.test/ok" then (some "\x7b\"x\":1\x7d", none)
    else if req.url = "http://example.test/plain" then (some "plain text", none)
    else (none, some "no such host")

/-- Stub of `json.Unmarshal`: one document is understood. -/
def stubUnmarshal (body : String) : Msg × Option Err :=
  if body = "\x7b\"x\":1\x7d" then (Msg.obj [("x", Msg.num 1)], none)
  else (Msg.null, some "invalid character")

/-- The stub library. -/
def stubLib : Lib (List String) (List String) StubRequest String where
  ParseString := ParseString
  Lexer := stubLexer
  Parser := stubParser
  Eval := stubEval
  NewRequest := stubNewRequest
  HeaderAdd := fun r k v => { r with header := r.header ++ [(k, v)] }
  Do := stubDo
  ReadAll := fun resp => (resp, none)
  Unmarshal := stubUnmarshal

/-- A rule message with both keys. -/
def mkRule (path header : String) : Msg :=
  Msg.obj [("Path", Msg.str path), ("Header", Msg.str header)]

/-- The locals after the rule `Path = "data.url"`, `Header = "Accept:application/json"`
was handled from the initial locals with the stub library. -/
def configured : State (List String) :=
  (ruleStep stubLib (State.init (List String)) (mkRule "data.url" "Accept:application/json")).state

end library

namespace library

/-- The data message of the worked example: its `data.url` is served by the
stub with a JSON body. -/
def okMsg : Msg :=
  Msg.obj [("data", Msg.obj [("url", Msg.str "http://example.test/ok")])]

end library

namespace library

/-- A rule message with a Path and no Header key. -/
def noHeaderRule : Msg :=
  Msg.obj [("Path", Msg.str "data.url")]

/-- A data message whose `data.url` is a string that the stub of
`http.NewRequest` cannot parse. -/
def badUrlMsg : Msg :=
  Msg.obj [("data", Msg.obj [("url", Msg.str "http://bad host/")])]

/-- Channels on which quit has been signaled while one data message of the
worked example is queued on `b.in`. -/
def quitAndData : Chans :=
  { inrule := [], quit := true, inmsg := [okMsg], queryrule := [] }

/-- A data message whose `data.url` is a number. -/
def numUrlMsg : Msg :=
  Msg.obj [("data", Msg.obj [("url", Msg.num 5)])]

end library

/-! ## Vocabulary of the properties -/

namespace library

/-- The Path of a rule message does not compile: reading the key reports an
error, or the lexer rejects the string read, or the parser rejects the
tokens. -/
def pathFails {Tokens Tree Request Response : Type} (lib : Lib Tokens Tree Request Response)
    (ruleI : Msg) : Bool :=
  (lib.ParseString ruleI "Path").2.isSome ||
  (lib.Lexer (lib.ParseString ruleI "Path").1).2.isSome ||
  (lib.Parser (lib.Lexer (lib.ParseString ruleI "Path").1).1).2.isSome

/-- Reading the Header key of a rule message reports an error. -/
def headerFails {Tokens Tree Request Response : Type} (lib : Lib Tokens Tree Request Response)
    (ruleI : Msg) : Bool :=
  (lib.ParseString ruleI "Header").2.isSome

/-- A malformed rule message: its Path does not compile or its Header cannot
be read. -/
def malformed {Tokens Tree Request Response : Type} (lib : Lib Tokens Tree Request Response)
    (ruleI : Msg) : Bool :=
  pathFails lib ruleI || headerFails lib ruleI

/-- The (name, value) pair a comma-separated piece of a header string
declares: the text before its first colon and the text after it up to the
next colon; none when the piece has no colon. -/
def pairOf (headerpair : String) : Option (String × String) :=
  match Split headerpair ':' with
  | name :: value :: _ => some (name, value)
  | _ => none

/-- The pairs a header string declares, in order. -/
def declaredPairs (H : String) : List (String × String) :=
  (Split H ',').filterMap pairOf

/-- The value of the last pair of the list that declares `name`. -/
def lastValue (name : String) : List (String × String) → Option String
  | [] => none
  | (n, v) :: rest =>
    match lastValue name rest with
    | some w => some w
    | none => if name = n then some v else none

/-- Every comma-separated piece of the header string has a colon. -/
def wellFormedHeader (H : String) : Prop :=
  ∀ headerpair ∈ Split H ',', ':' ∈ headerpair.data

end library

namespace library

/-- A rule message rejected with no compiled expression stored: the Path key
cannot be read, or the lexer rejects the path, or the parser rejects the
tokens and returns a nil tree. -/
def rejectedEarly {Tokens Tree Request Response : Type} (lib : Lib Tokens Tree Request Response)
    (ruleI : Msg) : Bool :=
  (lib.ParseString ruleI "Path").2.isSome ||
  (lib.Lexer (lib.ParseString ruleI "Path").1).2.isSome ||
  ((lib.Parser (lib.Lexer (lib.ParseString ruleI "Path").1).1).2.isSome &&
    (lib.Parser (lib.Lexer (lib.ParseString ruleI "Path").1).1).1.isNone)

end library
/-! ## Theorems: block library -/

theorem blocks.BuildLibrary_eq (prior : blocks.BlockLibrary) :
    blocks.BuildLibrary prior =
      [ ("ticker", { BlockType := "ticker", RouteNames := [], Routine := blocks.Routine.Ticker }),
        ("connection",
          { BlockType := "connection", RouteNames := ["last_seen"],
            Routine := blocks.Routine.Connection }),
        ("tolog", { BlockType := "tolog", RouteNames := [], Routine := blocks.Routine.ToLog }),
        ("random", { BlockType := "random", RouteNames := [], Routine := blocks.Routine.Random }) ] := by
  simp [blocks.BuildLibrary, blocks.templates, GoMap.set]

/-- C8: whatever the registry held before (an entry added by `register` for
any other block type changes nothing), after `BuildLibrary` its keys are exactly
ticker, connection, tolog and random, the lookup of each returns the template
with that block type and its declared route names, and the lookup of any
other name finds nothing. -/
theorem blocks.C8_BuildLibrary_replaces (prior : blocks.BlockLibrary)
    (extra : blocks.BlockTemplate) :
    blocks.BuildLibrary (blocks.register extra prior) = blocks.BuildLibrary prior ∧
    GoMap.keys (blocks.BuildLibrary prior) = ["ticker", "connection", "tolog", "random"] ∧
    GoMap.get "ticker" (blocks.BuildLibrary prior) =
      some { BlockType := "ticker", RouteNames := [], Routine := blocks.Routine.Ticker } ∧
    GoMap.get "connection" (blocks.BuildLibrary prior) =
      some { BlockType := "connection", RouteNames := ["last_seen"],
             Routine := blocks.Routine.Connection } ∧
    GoMap.get "tolog" (blocks.BuildLibrary prior) =
      some { BlockType := "tolog", RouteNames := [], Routine := blocks.Routine.ToLog } ∧
    GoMap.get "random" (blocks.BuildLibrary prior) =
      some { BlockType := "random", RouteNames := [], Routine := blocks.Routine.Random } ∧
    (∀ name : String,
      GoMap.get name (blocks.BuildLibrary prior) = none ↔
        name ∉ ["ticker", "connection", "tolog", "random"]) := by
  refine ⟨(blocks.BuildLibrary_eq (blocks.register extra prior)).trans
    (blocks.BuildLibrary_eq prior).symm, ?_⟩
  rw [blocks.BuildLibrary_eq]
  refine ⟨by simp [GoMap.keys], by simp [GoMap.get], by simp [GoMap.get], by simp [GoMap.get],
    by simp [GoMap.get], ?_⟩
  intro name
  simp only [GoMap.get]
  by_cases h1 : name = "ticker"
  · simp [h1]
  · by_cases h2 : name = "connection"
    · simp [h2]
    · by_cases h3 : name = "tolog"
      · simp [h3]
      · by_cases h4 : name = "random"
        · simp [h4]
        · simp [h1, h2, h3, h4]

/-! ## Lemmas: maps and splitting -/

theorem GoMap.get_set {V : Type} (k k' : String) (v : V) (m : GoMap V) :
    GoMap.get k' (GoMap.set k v m) = if k' = k then some v else GoMap.get k' m := by
  induction m with
  | nil => simp [GoMap.set, GoMap.get]
  | cons hd tl ih =>
    obtain ⟨a, b⟩ := hd
    by_cases h : k = a
    · subst h
      by_cases h2 : k' = k
      · simp [GoMap.set, GoMap.get, h2]
      · simp [GoMap.set, GoMap.get, h2]
    · by_cases h2 : k' = a
      · subst h2
        have h3 : ¬ k' = k := fun e => h e.symm
        simp [GoMap.set, GoMap.get, h, h3]
      · simp [GoMap.set, GoMap.get, h, h2, ih]

namespace library

theorem splitChars_of_not_mem (sep : Char) (cs : List Char) (h : sep ∉ cs) :
    splitChars sep cs = [cs] := by
  induction cs with
  | nil => rfl
  | cons c cs ih =>
    have hc : ¬ c = sep := fun e => h (by simp [e])
    have hcs : sep ∉ cs := fun e => h (by simp [e])
    simp [splitChars, hc, ih hcs]

theorem splitChars_of_mem (sep : Char) (cs : List Char) (h : sep ∈ cs) :
    ∃ a b rest, splitChars sep cs = a :: b :: rest := by
  induction cs with
  | nil => simp at h
  | cons c cs ih =>
    by_cases hc : c = sep
    · by_cases hcs : sep ∈ cs
      · obtain ⟨a, b, rest, e⟩ := ih hcs
        exact ⟨[], a, b :: rest, by simp [splitChars, hc, e]⟩
      · exact ⟨[], cs, [], by simp [splitChars, hc, splitChars_of_not_mem sep cs hcs]⟩
    · have hcs : sep ∈ cs := by
        rcases List.mem_cons.mp h with e | e
        · exact absurd e.symm hc
        · exact e
      obtain ⟨a, b, rest, e⟩ := ih hcs
      exact ⟨c :: a, b, rest, by simp [splitChars, hc, e]⟩

theorem Split_of_not_mem (s : String) (sep : Char) (h : sep ∉ s.data) :
    Split s sep = [s] := by
  simp [Split, splitChars_of_not_mem sep s.data h]

theorem Split_of_mem (s : String) (sep : Char) (h : sep ∈ s.data) :
    ∃ a b rest, Split s sep = a :: b :: rest := by
  obtain ⟨a, b, rest, e⟩ := splitChars_of_mem sep s.data h
  exact ⟨String.mk a, String.mk b, rest.map String.mk, by simp [Split, e]⟩

theorem headerLoop_panics (ps : List String) (headers : GoMap String)
    (h : ∃ headerpair ∈ ps, ':' ∉ headerpair.data) : (headerLoop ps headers).2 = true := by
  induction ps generalizing headers with
  | nil => simp at h
  | cons p ps ih =>
    by_cases hp : ':' ∈ p.data
    · obtain ⟨a, b, rest, e⟩ := Split_of_mem p ':' hp
      have h2 : ∃ headerpair ∈ ps, ':' ∉ headerpair.data := by
        obtain ⟨q, hq, hq2⟩ := h
        rcases List.mem_cons.mp hq with e2 | e2
        · subst e2
          exact absurd hp hq2
        · exact ⟨q, e2, hq2⟩
      simp only [headerLoop, e]
      exact ih _ h2
    · simp [headerLoop, Split_of_not_mem p ':' hp]

theorem headerLoop_ok (ps : List String) (headers : GoMap String)
    (h : ∀ headerpair ∈ ps, ':' ∈ headerpair.data) : (headerLoop ps headers).2 = false := by
  induction ps generalizing headers with
  | nil => rfl
  | cons p ps ih =>
    obtain ⟨a, b, rest, e⟩ := Split_of_mem p ':' (h p (by simp))
    simp only [headerLoop, e]
    exact ih _ (fun q hq => h q (by simp [hq]))

theorem headerLoop_get (name : String) (ps : List String) (headers : GoMap String)
    (h : (headerLoop ps headers).2 = false) :
    GoMap.get name (headerLoop ps headers).1 =
      match lastValue name (ps.filterMap pairOf) with
      | some v => some v
      | none => GoMap.get name headers := by
  induction ps generalizing headers with
  | nil => simp [headerLoop, lastValue]
  | cons p ps ih =>
    by_cases hp : ':' ∈ p.data
    · obtain ⟨a, b, rest, e⟩ := Split_of_mem p ':' hp
      have hpo : pairOf p = some (a, b) := by simp [pairOf, e]
      simp only [headerLoop, e] at h ⊢
      rw [ih _ h]
      simp only [List.filterMap_cons, hpo, lastValue]
      cases lastValue name (List.filterMap pairOf ps) with
      | some w => rfl
      | none =>
        by_cases hn : name = a
        · simp [GoMap.get_set, hn]
        · simp [GoMap.get_set, hn]
    · simp [headerLoop, Split_of_not_mem p ':' hp] at h

end library

/-! ## Lemmas: the outcomes of the rule case -/

namespace library

theorem ruleStep_pathErr {Tokens Tree Request Response : Type}
    (lib : Lib Tokens Tree Request Response) (st : State Tree) (ruleI : Msg)
    (p : String) (e : Err) (hP : lib.ParseString ruleI "Path" = (p, some e)) :
    ruleStep lib st ruleI = ⟨{ st with path := p }, [Effect.error e], Control.next⟩ := by
  simp [ruleStep, hP]

theorem ruleStep_lexErr {Tokens Tree Request Response : Type}
    (lib : Lib Tokens Tree Request Response) (st : State Tree) (ruleI : Msg)
    (p : String) (toks : Tokens) (e : Err)
    (hP : lib.ParseString ruleI "Path" = (p, none)) (hL : lib.Lexer p = (toks, some e)) :
    ruleStep lib st ruleI = ⟨{ st with path := p }, [Effect.error e], Control.next⟩ := by
  simp [ruleStep, hP, hL]

theorem ruleStep_parseErr {Tokens Tree Request Response : Type}
    (lib : Lib Tokens Tree Request Response) (st : State Tree) (ruleI : Msg)
    (p : String) (toks : Tokens) (t : Option Tree) (e : Err)
    (hP : lib.ParseString ruleI "Path" = (p, none)) (hL : lib.Lexer p = (toks, none))
    (hT : lib.Parser toks = (t, some e)) :
    ruleStep lib st ruleI =
      ⟨{ st with path := p, tree := t }, [Effect.error e], Control.next⟩ := by
  simp [ruleStep, hP, hL, hT]

theorem ruleStep_headerErr {Tokens Tree Request Response : Type}
    (lib : Lib Tokens Tree Request Response) (st : State Tree) (ruleI : Msg)
    (p : String) (toks : Tokens) (t : Option Tree) (H : String) (e : Err)
    (hP : lib.ParseString ruleI "Path" = (p, none)) (hL : lib.Lexer p = (toks, none))
    (hT : lib.Parser toks = (t, none)) (hH : lib.ParseString ruleI "Header" = (H, some e)) :
    ruleStep lib st ruleI =
      ⟨{ st with path := p, tree := t, headerString := H }, [Effect.error e], Control.next⟩ := by
  simp [ruleStep, hP, hL, hT, hH]

theorem ruleStep_compiled {Tokens Tree Request Response : Type}
    (lib : Lib Tokens Tree Request Response) (st : State Tree) (ruleI : Msg)
    (p : String) (toks : Tokens) (t : Option Tree) (H : String)
    (hP : lib.ParseString ruleI "Path" = (p, none)) (hL : lib.Lexer p = (toks, none))
    (hT : lib.Parser toks = (t, none)) (hH : lib.ParseString ruleI "Header" = (H, none)) :
    ruleStep lib st ruleI =
      ⟨{ path := p, tree := t, headerString := H,
         headers := (headerLoop (Split H ',') st.headers).1 }, [],
        if (headerLoop (Split H ',') st.headers).2 = true then Control.panic
        else Control.next⟩ := by
  simp only [ruleStep, hP, hL, hT, hH]
  obtain ⟨hs, b, hb⟩ : ∃ hs b, headerLoop (Split H ',') st.headers = (hs, b) := ⟨_, _, rfl⟩
  cases b <;> simp [hb]

end library

/-! ## Theorems: the rule case -/

namespace library

/-- C1 (as stated) fails: the block holds the configuration set by the rule
Path = "data.url", Header = "Accept:application/json", handled without error;
the rule with Path = "bad path" is rejected by the lexer and an error is
reported, yet the query handled afterwards replies with Path = "bad path",
not with "data.url". -/
theorem C1_counterexample :
    (ruleStep stubLib (State.init (List String))
        (mkRule "data.url" "Accept:application/json")).effects = [] ∧
    (ruleStep stubLib (State.init (List String))
        (mkRule "data.url" "Accept:application/json")).ctl = Control.next ∧
    configured.path = "data.url" ∧
    configured.headerString = "Accept:application/json" ∧
    malformed stubLib (mkRule "bad path" "Accept:application/json") = true ∧
    (step stubLib configured
        (Event.rule (mkRule "bad path" "Accept:application/json"))).effects =
      [Effect.error "lexer error"] ∧
    (step stubLib
        (step stubLib configured
          (Event.rule (mkRule "bad path" "Accept:application/json"))).state
        (Event.query 0)).effects =
      [Effect.reply 0 (Msg.obj [("Path", Msg.str "bad path"),
                                ("Header", Msg.str "Accept:application/json")])] ∧
    Msg.obj [("Path", Msg.str "bad path"), ("Header", Msg.str "Accept:application/json")] ≠
      Msg.obj [("Path", Msg.str configured.path),
               ("Header", Msg.str configured.headerString)] := by
  refine ⟨rfl, rfl, rfl, rfl, rfl, rfl, rfl, ?_⟩
  intro h
  injection h with h1
  injection h1 with h2 _
  injection h2 with _ h3
  injection h3 with h4
  exact absurd h4 (by decide)

/-- C1 (amended): for every block state and every malformed rule message,
handling the rule event reports exactly one error, the loop continues and the
header mapping is unchanged; the query handled afterwards replies with Path
equal to the string read from the Path key of the malformed rule, and with
Header equal to the previous header string when the Path does not compile,
and to the string returned by the failed read of the Header key otherwise. -/
theorem C1_malformed_rule_then_query {Tokens Tree Request Response : Type}
    (lib : Lib Tokens Tree Request Response) (st : State Tree) (ruleI : Msg) (ch : Nat)
    (h : malformed lib ruleI = true) :
    (∃ e, (step lib st (Event.rule ruleI)).effects = [Effect.error e]) ∧
    (step lib st (Event.rule ruleI)).ctl = Control.next ∧
    (step lib st (Event.rule ruleI)).state.headers = st.headers ∧
    (step lib (step lib st (Event.rule ruleI)).state (Event.query ch)).effects =
      [Effect.reply ch (Msg.obj
        [("Path", Msg.str (lib.ParseString ruleI "Path").1),
         ("Header", Msg.str (if pathFails lib ruleI = true then st.headerString
                             else (lib.ParseString ruleI "Header").1))])] := by
  obtain ⟨p, oe, hP⟩ : ∃ p oe, lib.ParseString ruleI "Path" = (p, oe) := ⟨_, _, rfl⟩
  obtain ⟨toks, ol, hL⟩ : ∃ toks ol, lib.Lexer p = (toks, ol) := ⟨_, _, rfl⟩
  obtain ⟨t, ot, hT⟩ : ∃ t ot, lib.Parser toks = (t, ot) := ⟨_, _, rfl⟩
  obtain ⟨H, oh, hH⟩ : ∃ H oh, lib.ParseString ruleI "Header" = (H, oh) := ⟨_, _, rfl⟩
  simp only [step]
  cases oe with
  | some e =>
    rw [ruleStep_pathErr lib st ruleI p e hP]
    simp [queryStep, pathFails, hP]
  | none =>
    cases ol with
    | some e =>
      rw [ruleStep_lexErr lib st ruleI p toks e hP hL]
      simp [queryStep, pathFails, hP, hL]
    | none =>
      cases ot with
      | some e =>
        rw [ruleStep_parseErr lib st ruleI p toks t e hP hL hT]
        simp [queryStep, pathFails, hP, hL, hT]
      | none =>
        cases oh with
        | some e =>
          rw [ruleStep_headerErr lib st ruleI p toks t H e hP hL hT hH]
          simp [queryStep, pathFails, hP, hL, hT, hH]
        | none =>
          simp [malformed, pathFails, headerFails, hP, hL, hT, hH] at h

/-- Witness of C1 (amended) on the stub library. -/
theorem C1_malformed_rule_then_query_witness :
    malformed stubLib (mkRule "bad path" "X:1") = true ∧
    (step stubLib (step stubLib configured (Event.rule (mkRule "bad path" "X:1"))).state
        (Event.query 7)).effects =
      [Effect.reply 7 (Msg.obj
        [("Path", Msg.str (stubLib.ParseString (mkRule "bad path" "X:1") "Path").1),
         ("Header", Msg.str (if pathFails stubLib (mkRule "bad path" "X:1") = true
                             then configured.headerString
                             else (stubLib.ParseString (mkRule "bad path" "X:1") "Header").1))])] :=
  ⟨rfl, (C1_malformed_rule_then_query stubLib configured (mkRule "bad path" "X:1") 7 rfl).2.2.2⟩

end library

namespace library

theorem dataStep_state {Tokens Tree Request Response : Type}
    (lib : Lib Tokens Tree Request Response) (st : State Tree) (msg : Msg) :
    (dataStep lib st msg).state = st := by
  unfold dataStep
  repeat' split
  all_goals rfl

theorem dataStep_congr {Tokens Tree Request Response : Type}
    (lib : Lib Tokens Tree Request Response) (st st' : State Tree) (msg : Msg)
    (ht : st'.tree = st.tree) (hh : st'.headers = st.headers) :
    (dataStep lib st' msg).effects = (dataStep lib st msg).effects ∧
    (dataStep lib st' msg).ctl = (dataStep lib st msg).ctl := by
  unfold dataStep
  rw [ht, hh]
  repeat' split
  all_goals exact ⟨rfl, rfl⟩

end library

namespace library

/-- C2 (as stated) fails: the block holds the compiled expression of
"data.url"; the rule with Path = "data..url" passes the lexer and is
rejected by the parser, an error is reported, and the compiled expression is
overwritten by the nil tree the parser returned: the data message that
produced an output before is dropped afterwards. -/
theorem C2_counterexample :
    configured.tree = some ["data", "url"] ∧
    stubLib.ParseString (mkRule "data..url" "X:1") "Path" = ("data..url", none) ∧
    stubLib.Lexer "data..url" = (["data", "", "url"], none) ∧
    stubLib.Parser ["data", "", "url"] = (none, some "parser error") ∧
    (step stubLib configured (Event.rule (mkRule "data..url" "X:1"))).effects =
      [Effect.error "parser error"] ∧
    (step stubLib configured (Event.rule (mkRule "data..url" "X:1"))).state.tree = none ∧
    (step stubLib configured (Event.data okMsg)).effects =
      [Effect.out (Msg.obj [("x", Msg.num 1)])] ∧
    (step stubLib (step stubLib configured (Event.rule (mkRule "data..url" "X:1"))).state
        (Event.data okMsg)).effects = [] :=
  ⟨rfl, rfl, rfl, rfl, rfl, rfl, rfl, rfl⟩

/-- C2 (amended): for every block state and every rule message whose Path is
read and fails to compile, handling the rule event reports exactly one error
and the loop continues. When the lexer returns the error, the compiled
expression and the header mapping are unchanged, so a later data event has
the effects it would have had before the rule. When the parser returns the
error, the compiled expression becomes the tree value the parser returned
with its error. -/
theorem C2_compile_failure {Tokens Tree Request Response : Type}
    (lib : Lib Tokens Tree Request Response) (st : State Tree) (ruleI : Msg) (p : String)
    (hP : lib.ParseString ruleI "Path" = (p, none))
    (hfail : ((lib.Lexer p).2.isSome || (lib.Parser (lib.Lexer p).1).2.isSome) = true) :
    (∃ e, (step lib st (Event.rule ruleI)).effects = [Effect.error e]) ∧
    (step lib st (Event.rule ruleI)).ctl = Control.next ∧
    (step lib st (Event.rule ruleI)).state.tree =
      (if (lib.Lexer p).2.isSome = true then st.tree else (lib.Parser (lib.Lexer p).1).1) ∧
    ((lib.Lexer p).2.isSome = true →
      ∀ msg : Msg,
        (step lib (step lib st (Event.rule ruleI)).state (Event.data msg)).effects =
          (step lib st (Event.data msg)).effects ∧
        (step lib (step lib st (Event.rule ruleI)).state (Event.data msg)).ctl =
          (step lib st (Event.data msg)).ctl) := by
  obtain ⟨toks, ol, hL⟩ : ∃ toks ol, lib.Lexer p = (toks, ol) := ⟨_, _, rfl⟩
  obtain ⟨t, ot, hT⟩ : ∃ t ot, lib.Parser toks = (t, ot) := ⟨_, _, rfl⟩
  simp only [step]
  cases ol with
  | some e =>
    rw [ruleStep_lexErr lib st ruleI p toks e hP hL]
    refine ⟨⟨e, rfl⟩, rfl, by simp [hL], ?_⟩
    intro _ msg
    exact dataStep_congr lib st _ msg rfl rfl
  | none =>
    cases ot with
    | some e =>
      rw [ruleStep_parseErr lib st ruleI p toks t e hP hL hT]
      refine ⟨⟨e, rfl⟩, rfl, by simp [hL, hT], ?_⟩
      intro h
      simp [hL] at h
    | none => simp [hL, hT] at hfail

/-- Witness of C2 (amended): the lexer of the stub rejects "bad path". -/
theorem C2_compile_failure_witness :
    stubLib.ParseString (mkRule "bad path" "X:1") "Path" = ("bad path", none) ∧
    ((stubLib.Lexer "bad path").2.isSome ||
      (stubLib.Parser (stubLib.Lexer "bad path").1).2.isSome) = true ∧
    (step stubLib configured (Event.rule (mkRule "bad path" "X:1"))).state.tree =
      (if (stubLib.Lexer "bad path").2.isSome = true then configured.tree
       else (stubLib.Parser (stubLib.Lexer "bad path").1).1) :=
  ⟨rfl, rfl,
    (C2_compile_failure stubLib configured (mkRule "bad path" "X:1") "bad path" rfl rfl).2.2.1⟩

/-- C3: a rule message whose Path compiles and whose Header string has a
comma-separated piece with no colon is not recovered: the iteration reports
no error and ends in a panic (index out of range at `hh[1]`), so the loop
does not go on to the next event. -/
theorem C3_missing_delimiter_panics {Tokens Tree Request Response : Type}
    (lib : Lib Tokens Tree Request Response) (st : State Tree) (ruleI : Msg)
    (p : String) (toks : Tokens) (t : Option Tree) (H : String) (rest : List Event)
    (hP : lib.ParseString ruleI "Path" = (p, none)) (hL : lib.Lexer p = (toks, none))
    (hT : lib.Parser toks = (t, none)) (hH : lib.ParseString ruleI "Header" = (H, none))
    (hbad : ∃ headerpair ∈ Split H ',', ':' ∉ headerpair.data) :
    (step lib st (Event.rule ruleI)).ctl = Control.panic ∧
    (step lib st (Event.rule ruleI)).effects = [] ∧
    (Run lib st (Event.rule ruleI :: rest)).status = Status.panicked ∧
    (Run lib st (Event.rule ruleI :: rest)).effects = [] ∧
    (Run lib st (Event.rule ruleI :: rest)).pending = rest := by
  have hs : step lib st (Event.rule ruleI) =
      ⟨{ path := p, tree := t, headerString := H,
         headers := (headerLoop (Split H ',') st.headers).1 }, [], Control.panic⟩ := by
    simp only [step]
    rw [ruleStep_compiled lib st ruleI p toks t H hP hL hT hH]
    simp [headerLoop_panics _ st.headers hbad]
  simp [Run, hs]

/-- Witness of C3: the empty Header string on the configured stub block. -/
theorem C3_missing_delimiter_panics_witness :
    (∃ headerpair ∈ Split "" ',', ':' ∉ headerpair.data) ∧
    (step stubLib configured (Event.rule (mkRule "data.url" ""))).ctl = Control.panic ∧
    (Run stubLib configured
        [Event.rule (mkRule "data.url" ""), Event.data okMsg]).status = Status.panicked :=
  have hbad : ∃ headerpair ∈ Split "" ',', ':' ∉ headerpair.data := ⟨"", by decide, by decide⟩
  have h := C3_missing_delimiter_panics stubLib configured (mkRule "data.url" "") "data.url"
    ["data", "url"] (some ["data", "url"]) "" [Event.data okMsg] rfl rfl rfl rfl hbad
  ⟨hbad, h.1, h.2.2.1⟩

/-- C4 (as stated) fails: on the block configured with Header =
"Accept:application/json", the rule with Header = "B:2" is handled without
error and every pair of it is well-formed, yet the header mapping afterwards
still holds Accept, a name that no pair of "B:2" declares. -/
theorem C4_counterexample :
    (step stubLib configured (Event.rule (mkRule "data.url" "B:2"))).effects = [] ∧
    (step stubLib configured (Event.rule (mkRule "data.url" "B:2"))).ctl = Control.next ∧
    (step stubLib configured (Event.rule (mkRule "data.url" "B:2"))).state.headerString = "B:2" ∧
    declaredPairs "B:2" = [("B", "2")] ∧
    lastValue "Accept" (declaredPairs "B:2") = none ∧
    (step stubLib configured (Event.rule (mkRule "data.url" "B:2"))).state.headers =
      [("Accept", "application/json"), ("B", "2")] ∧
    GoMap.get "Accept"
        (step stubLib configured (Event.rule (mkRule "data.url" "B:2"))).state.headers =
      some "application/json" :=
  ⟨rfl, rfl, rfl, rfl, rfl, rfl, rfl⟩

/-- C4 (amended): for every block state and every rule message handled
without error with Header string H, every pair of H well-formed, the header
mapping after the event is the mapping before the event overwritten by the
pairs of H: a name declared by some pair of H maps to the value of the last
pair of H declaring it, and every other name has the entry it had before the
event (present with its old value, or absent). -/
theorem C4_headers_overlay {Tokens Tree Request Response : Type}
    (lib : Lib Tokens Tree Request Response) (st : State Tree) (ruleI : Msg)
    (p : String) (toks : Tokens) (t : Option Tree) (H : String) (name : String)
    (hP : lib.ParseString ruleI "Path" = (p, none)) (hL : lib.Lexer p = (toks, none))
    (hT : lib.Parser toks = (t, none)) (hH : lib.ParseString ruleI "Header" = (H, none))
    (hwf : wellFormedHeader H) :
    (step lib st (Event.rule ruleI)).effects = [] ∧
    (step lib st (Event.rule ruleI)).ctl = Control.next ∧
    (step lib st (Event.rule ruleI)).state.headerString = H ∧
    GoMap.get name (step lib st (Event.rule ruleI)).state.headers =
      (match lastValue name (declaredPairs H) with
       | some v => some v
       | none => GoMap.get name st.headers) := by
  have hok := headerLoop_ok (Split H ',') st.headers hwf
  simp only [step]
  rw [ruleStep_compiled lib st ruleI p toks t H hP hL hT hH]
  refine ⟨rfl, by simp [hok], rfl, ?_⟩
  exact headerLoop_get name (Split H ',') st.headers hok

/-- Witness of C4 (amended): the rule with Header = "B:2,B:3" on the
configured stub block. -/
theorem C4_headers_overlay_witness :
    wellFormedHeader "B:2,B:3" ∧
    GoMap.get "B"
        (step stubLib configured (Event.rule (mkRule "data.url" "B:2,B:3"))).state.headers =
      (match lastValue "B" (declaredPairs "B:2,B:3") with
       | some v => some v
       | none => GoMap.get "B" configured.headers) ∧
    lastValue "B" (declaredPairs "B:2,B:3") = some "3" :=
  have hwf : wellFormedHeader "B:2,B:3" := by
    intro q hq
    have hq2 : q = "B:2" ∨ q = "B:3" := by
      have e : Split "B:2,B:3" ',' = ["B:2", "B:3"] := by decide
      rw [e] at hq
      simpa using hq
    rcases hq2 with e | e <;> subst e <;> decide
  ⟨hwf,
    (C4_headers_overlay stubLib configured (mkRule "data.url" "B:2,B:3") "data.url"
      ["data", "url"] (some ["data", "url"]) "B:2,B:3" "B" rfl rfl rfl rfl hwf).2.2.2,
    rfl⟩

end library

/-! ## Lemmas: the loop -/

namespace library

theorem Run_cons_next {Tokens Tree Request Response : Type}
    (lib : Lib Tokens Tree Request Response) (st : State Tree) (ev : Event) (rest : List Event)
    (h : (step lib st ev).ctl = Control.next) :
    Run lib st (ev :: rest) =
      { state := (Run lib (step lib st ev).state rest).state,
        effects := (step lib st ev).effects ++ (Run lib (step lib st ev).state rest).effects,
        received := (Run lib (step lib st ev).state rest).received + 1,
        status := (Run lib (step lib st ev).state rest).status,
        pending := (Run lib (step lib st ev).state rest).pending } := by
  obtain ⟨s1, effs, c, hs⟩ : ∃ s1 effs c, step lib st ev = ⟨s1, effs, c⟩ := ⟨_, _, _, rfl⟩
  rw [hs] at h
  simp only at h
  subst h
  simp [Run, hs]

theorem Run_cons_returned {Tokens Tree Request Response : Type}
    (lib : Lib Tokens Tree Request Response) (st : State Tree) (ev : Event) (rest : List Event)
    (h : (step lib st ev).ctl = Control.returned) :
    Run lib st (ev :: rest) =
      ⟨(step lib st ev).state, (step lib st ev).effects, 1, Status.returned, rest⟩ := by
  obtain ⟨s1, effs, c, hs⟩ : ∃ s1 effs c, step lib st ev = ⟨s1, effs, c⟩ := ⟨_, _, _, rfl⟩
  rw [hs] at h
  simp only at h
  subst h
  simp [Run, hs]

theorem Run_cons_panic {Tokens Tree Request Response : Type}
    (lib : Lib Tokens Tree Request Response) (st : State Tree) (ev : Event) (rest : List Event)
    (h : (step lib st ev).ctl = Control.panic) :
    Run lib st (ev :: rest) =
      ⟨(step lib st ev).state, (step lib st ev).effects, 1, Status.panicked, rest⟩ := by
  obtain ⟨s1, effs, c, hs⟩ : ∃ s1 effs c, step lib st ev = ⟨s1, effs, c⟩ := ⟨_, _, _, rfl⟩
  rw [hs] at h
  simp only at h
  subst h
  simp [Run, hs]

theorem Run_quit_append {Tokens Tree Request Response : Type}
    (lib : Lib Tokens Tree Request Response) (pre post : List Event) (st : State Tree) :
    (Run lib st (pre ++ Event.quit :: post)).state = (Run lib st (pre ++ [Event.quit])).state ∧
    (Run lib st (pre ++ Event.quit :: post)).effects =
      (Run lib st (pre ++ [Event.quit])).effects ∧
    (Run lib st (pre ++ Event.quit :: post)).received =
      (Run lib st (pre ++ [Event.quit])).received ∧
    (Run lib st (pre ++ Event.quit :: post)).status =
      (Run lib st (pre ++ [Event.quit])).status ∧
    (Run lib st (pre ++ Event.quit :: post)).pending =
      (Run lib st (pre ++ [Event.quit])).pending ++ post ∧
    (Run lib st (pre ++ Event.quit :: post)).status ≠ Status.waiting ∧
    (Run lib st (pre ++ Event.quit :: post)).received ≤ pre.length + 1 := by
  induction pre generalizing st with
  | nil => simp [Run, step]
  | cons ev pre ih =>
    simp only [List.cons_append]
    rcases hc : (step lib st ev).ctl with _ | _ | _
    · rw [Run_cons_next lib st ev _ hc, Run_cons_next lib st ev _ hc]
      obtain ⟨h1, h2, h3, h4, h5, h6, h7⟩ := ih (step lib st ev).state
      refine ⟨h1, by simp [h2], by simp [h3], h4, h5, h6, ?_⟩
      simp only [List.length_cons]
      omega
    · rw [Run_cons_returned lib st ev _ hc, Run_cons_returned lib st ev _ hc]
      simp
    · rw [Run_cons_panic lib st ev _ hc, Run_cons_panic lib st ev _ hc]
      simp

theorem Run_quit_of_waiting {Tokens Tree Request Response : Type}
    (lib : Lib Tokens Tree Request Response) (pre post : List Event) (st : State Tree)
    (h : (Run lib st pre).status = Status.waiting) :
    Run lib st (pre ++ Event.quit :: post) =
      ⟨(Run lib st pre).state, (Run lib st pre).effects, pre.length + 1, Status.returned, post⟩ := by
  induction pre generalizing st with
  | nil => simp [Run, step]
  | cons ev pre ih =>
    simp only [List.cons_append]
    rcases hc : (step lib st ev).ctl with _ | _ | _
    · rw [Run_cons_next lib st ev pre hc] at h
      simp only at h
      rw [Run_cons_next lib st ev (pre ++ Event.quit :: post) hc, Run_cons_next lib st ev pre hc,
        ih _ h]
      simp
    · rw [Run_cons_returned lib st ev _ hc] at h
      simp at h
    · rw [Run_cons_panic lib st ev _ hc] at h
      simp at h

theorem ruleStep_rejectedEarly {Tokens Tree Request Response : Type}
    (lib : Lib Tokens Tree Request Response) (st : State Tree) (ruleI : Msg)
    (hst : st.tree = none) (h : rejectedEarly lib ruleI = true) :
    (ruleStep lib st ruleI).ctl = Control.next ∧ (ruleStep lib st ruleI).state.tree = none := by
  obtain ⟨p, oe, hP⟩ : ∃ p oe, lib.ParseString ruleI "Path" = (p, oe) := ⟨_, _, rfl⟩
  obtain ⟨toks, ol, hL⟩ : ∃ toks ol, lib.Lexer p = (toks, ol) := ⟨_, _, rfl⟩
  obtain ⟨t, ot, hT⟩ : ∃ t ot, lib.Parser toks = (t, ot) := ⟨_, _, rfl⟩
  cases oe with
  | some e =>
    rw [ruleStep_pathErr lib st ruleI p e hP]
    exact ⟨rfl, hst⟩
  | none =>
    cases ol with
    | some e =>
      rw [ruleStep_lexErr lib st ruleI p toks e hP hL]
      exact ⟨rfl, hst⟩
    | none =>
      cases ot with
      | some e =>
        rw [ruleStep_parseErr lib st ruleI p toks t e hP hL hT]
        refine ⟨rfl, ?_⟩
        simp [rejectedEarly, hP, hL, hT] at h
        simpa using h
      | none => simp [rejectedEarly, hP, hL, hT] at h

theorem Run_rejectedEarly {Tokens Tree Request Response : Type}
    (lib : Lib Tokens Tree Request Response) (rules : List Msg) (st : State Tree)
    (hst : st.tree = none) (hr : ∀ r ∈ rules, rejectedEarly lib r = true) :
    (Run lib st (rules.map Event.rule)).status = Status.waiting ∧
    (Run lib st (rules.map Event.rule)).state.tree = none := by
  induction rules generalizing st with
  | nil => exact ⟨rfl, hst⟩
  | cons r rules ih =>
    have h1 := ruleStep_rejectedEarly lib st r hst (hr r (by simp))
    have hc : (step lib st (Event.rule r)).ctl = Control.next := h1.1
    simp only [List.map_cons]
    rw [Run_cons_next lib st _ _ hc]
    exact ih _ h1.2 (fun q hq => hr q (by simp [hq]))

end library

/-! ## Lemmas: the select -/

namespace library

theorem RunSelect_cons_next {Tokens Tree Request Response : Type}
    (lib : Lib Tokens Tree Request Response) (st : State Tree) (ch ch1 : Chans) (c : Case)
    (cs : List Case) (ev : Event) (hrec : receive c ch = some (ev, ch1))
    (h : (step lib st ev).ctl = Control.next) :
    RunSelect lib st ch (c :: cs) =
      (RunSelect lib (step lib st ev).state ch1 cs).map
        (fun r => { r with effects := (step lib st ev).effects ++ r.effects }) := by
  obtain ⟨s1, effs, k, hs⟩ : ∃ s1 effs k, step lib st ev = ⟨s1, effs, k⟩ := ⟨_, _, _, rfl⟩
  rw [hs] at h
  simp only at h
  subst h
  simp [RunSelect, hrec, hs]

theorem RunSelect_cons_returned {Tokens Tree Request Response : Type}
    (lib : Lib Tokens Tree Request Response) (st : State Tree) (ch ch1 : Chans) (c : Case)
    (cs : List Case) (ev : Event) (hrec : receive c ch = some (ev, ch1))
    (h : (step lib st ev).ctl = Control.returned) :
    RunSelect lib st ch (c :: cs) =
      some ⟨(step lib st ev).state, (step lib st ev).effects, Status.returned, ch1⟩ := by
  obtain ⟨s1, effs, k, hs⟩ : ∃ s1 effs k, step lib st ev = ⟨s1, effs, k⟩ := ⟨_, _, _, rfl⟩
  rw [hs] at h
  simp only at h
  subst h
  simp [RunSelect, hrec, hs]

theorem RunSelect_cons_panic {Tokens Tree Request Response : Type}
    (lib : Lib Tokens Tree Request Response) (st : State Tree) (ch ch1 : Chans) (c : Case)
    (cs : List Case) (ev : Event) (hrec : receive c ch = some (ev, ch1))
    (h : (step lib st ev).ctl = Control.panic) :
    RunSelect lib st ch (c :: cs) =
      some ⟨(step lib st ev).state, (step lib st ev).effects, Status.panicked, ch1⟩ := by
  obtain ⟨s1, effs, k, hs⟩ : ∃ s1 effs k, step lib st ev = ⟨s1, effs, k⟩ := ⟨_, _, _, rfl⟩
  rw [hs] at h
  simp only at h
  subst h
  simp [RunSelect, hrec, hs]

theorem RunSelect_quit_of_waiting {Tokens Tree Request Response : Type}
    (lib : Lib Tokens Tree Request Response) (pre post : List Case) (st : State Tree)
    (ch : Chans) (r : SelectResult Tree)
    (h : RunSelect lib st ch pre = some r) (hw : r.status = Status.waiting)
    (hq : r.chans.quit = true) :
    RunSelect lib st ch (pre ++ Case.quit :: post) =
      some ⟨r.state, r.effects, Status.returned, { r.chans with quit := false }⟩ := by
  induction pre generalizing st ch r with
  | nil =>
    simp only [RunSelect, Option.some.injEq] at h
    subst h
    simp only at hq
    simp [RunSelect, receive, hq, step]
  | cons c pre ih =>
    simp only [List.cons_append]
    cases hrec : receive c ch with
    | none => simp [RunSelect, hrec] at h
    | some p =>
      obtain ⟨ev, ch1⟩ := p
      rcases hc : (step lib st ev).ctl with _ | _ | _
      · rw [RunSelect_cons_next lib st ch ch1 c pre ev hrec hc] at h
        rw [RunSelect_cons_next lib st ch ch1 c (pre ++ Case.quit :: post) ev hrec hc]
        obtain ⟨r1, hr1, hr2⟩ := Option.map_eq_some'.mp h
        subst hr2
        rw [ih _ _ r1 hr1 hw hq]
        rfl
      · rw [RunSelect_cons_returned lib st ch ch1 c pre ev hrec hc] at h
        simp only [Option.some.injEq] at h
        subst h
        simp at hw
      · rw [RunSelect_cons_panic lib st ch ch1 c pre ev hrec hc] at h
        simp only [Option.some.injEq] at h
        subst h
        simp at hw

end library

/-! ## Theorems: the data case and the loop -/

namespace library

/-- C5 (as stated) fails: a freshly started block receives a rule with a
Path and no Header key; the rule reports an error, so no rule has completed
without error, but the compiled expression is already stored, and the data
event handled next is evaluated, fetched and emitted on the output. -/
theorem C5_counterexample :
    (step stubLib (State.init (List String)) (Event.rule noHeaderRule)).effects =
      [Effect.error "Key was not in rule"] ∧
    (step stubLib (State.init (List String)) (Event.rule noHeaderRule)).state.tree =
      some ["data", "url"] ∧
    (Run stubLib (State.init (List String))
        [Event.rule noHeaderRule, Event.data okMsg]).effects =
      [Effect.error "Key was not in rule", Effect.out (Msg.obj [("x", Msg.num 1)])] :=
  ⟨rfl, rfl, rfl⟩

/-- C5 (amended): for every block whose compiled expression is absent, in
particular a freshly started block and a block that has so far received only
rule messages rejected with no compiled expression stored (the Path key
could not be read, the lexer rejected the path, or the parser rejected it and
returned a nil tree), handling a data event produces no output, reports no
error and leaves the block state unchanged, and the loop continues. -/
theorem C5_unconfigured_drops_data {Tokens Tree Request Response : Type}
    (lib : Lib Tokens Tree Request Response) (rules : List Msg) (msg : Msg)
    (hr : ∀ r ∈ rules, rejectedEarly lib r = true) :
    (Run lib (State.init Tree) (rules.map Event.rule)).status = Status.waiting ∧
    (Run lib (State.init Tree) (rules.map Event.rule)).state.tree = none ∧
    step lib (Run lib (State.init Tree) (rules.map Event.rule)).state (Event.data msg) =
      ⟨(Run lib (State.init Tree) (rules.map Event.rule)).state, [], Control.next⟩ ∧
    (∀ st : State Tree, st.tree = none →
      step lib st (Event.data msg) = ⟨st, [], Control.next⟩) := by
  have h := Run_rejectedEarly lib rules (State.init Tree) rfl hr
  refine ⟨h.1, h.2, ?_, ?_⟩
  · simp [step, dataStep, h.2]
  · intro st hst
    simp [step, dataStep, hst]

/-- Witness of C5 (amended): two rejected rules on the stub block, then a
data message. -/
theorem C5_unconfigured_drops_data_witness :
    (∀ r ∈ [mkRule "bad path" "X:1", mkRule "data..url" "X:1"],
      rejectedEarly stubLib r = true) ∧
    (Run stubLib (State.init (List String))
      ([mkRule "bad path" "X:1", mkRule "data..url" "X:1"].map Event.rule)).state.tree = none :=
  have hr : ∀ r ∈ [mkRule "bad path" "X:1", mkRule "data..url" "X:1"],
      rejectedEarly stubLib r = true := by
    intro r hr
    have h2 : r = mkRule "bad path" "X:1" ∨ r = mkRule "data..url" "X:1" := by simpa using hr
    rcases h2 with e | e <;> subst e <;> rfl
  ⟨hr, (C5_unconfigured_drops_data stubLib
    [mkRule "bad path" "X:1", mkRule "data..url" "X:1"] okMsg hr).2.1⟩

/-- C6: on a configured block, when evaluating the path expression on the
data message yields a string URL, the request is built, `Do` returns a
response without error and the body B is read without error, handling the
data event emits exactly one message and nothing else: the parsed structure
when `json.Unmarshal` of B returns no error, and the one-field mapping with
key "data" and value B otherwise. No error is reported, the state is unchanged
and the loop continues. -/
theorem C6_data_emits_one_message {Tokens Tree Request Response : Type}
    (lib : Lib Tokens Tree Request Response) (st : State Tree) (msg : Msg)
    (t : Tree) (url : String) (req : Request) (e0 : Option Err) (resp : Response)
    (body : String)
    (ht : st.tree = some t) (hE : lib.Eval t msg = (Msg.str url, none))
    (hN : lib.NewRequest "GET" url = (some req, e0))
    (hD : lib.Do (some (addHeaders lib st.headers req)) = (some resp, none))
    (hR : lib.ReadAll resp = (body, none)) :
    step lib st (Event.data msg) =
      ⟨st,
        [Effect.out (if (lib.Unmarshal body).2 = none then (lib.Unmarshal body).1
                     else Msg.obj [("data", Msg.str body)])],
        Control.next⟩ := by
  obtain ⟨m, ou, hU⟩ : ∃ m ou, lib.Unmarshal body = (m, ou) := ⟨_, _, rfl⟩
  cases ou <;> simp [step, dataStep, ht, hE, hN, hD, hR, hU]

/-- Witness of C6: the worked example on the stub block; the body parses. -/
theorem C6_data_emits_one_message_witness :
    configured.tree = some ["data", "url"] ∧
    stubLib.Eval ["data", "url"] okMsg = (Msg.str "http://example.test/ok", none) ∧
    stubLib.ReadAll "\x7b\"x\":1\x7d" = ("\x7b\"x\":1\x7d", none) ∧
    step stubLib configured (Event.data okMsg) =
      ⟨configured,
        [Effect.out (if (stubLib.Unmarshal "\x7b\"x\":1\x7d").2 = none
                     then (stubLib.Unmarshal "\x7b\"x\":1\x7d").1
                     else Msg.obj [("data", Msg.str "\x7b\"x\":1\x7d")])],
        Control.next⟩ :=
  ⟨rfl, rfl, rfl,
    C6_data_emits_one_message stubLib configured okMsg ["data", "url"] "http://example.test/ok"
      ⟨"http://example.test/ok", []⟩ none "\x7b\"x\":1\x7d" "\x7b\"x\":1\x7d" rfl rfl rfl rfl rfl⟩

/-- C7: on a configured block, when evaluating the compiled path expression
on the data message returns an error, or returns a value that is not a string
(nil included), handling the data event reports exactly one error and emits
nothing on the output, the state (configuration) is unchanged, and the loop
continues with the remaining events. -/
theorem C7_eval_failure_reports {Tokens Tree Request Response : Type}
    (lib : Lib Tokens Tree Request Response) (st : State Tree) (msg : Msg) (t : Tree)
    (ht : st.tree = some t)
    (hbad : (lib.Eval t msg).2.isSome = true ∨ ∀ s : String, (lib.Eval t msg).1 ≠ Msg.str s) :
    ∃ e : Err,
      step lib st (Event.data msg) = ⟨st, [Effect.error e], Control.next⟩ ∧
      ∀ rest : List Event,
        (Run lib st (Event.data msg :: rest)).effects =
          Effect.error e :: (Run lib st rest).effects ∧
        (Run lib st (Event.data msg :: rest)).state = (Run lib st rest).state ∧
        (Run lib st (Event.data msg :: rest)).status = (Run lib st rest).status ∧
        (Run lib st (Event.data msg :: rest)).pending = (Run lib st rest).pending := by
  have key : ∃ e : Err, step lib st (Event.data msg) = ⟨st, [Effect.error e], Control.next⟩ := by
    obtain ⟨v, oe, hE⟩ : ∃ v oe, lib.Eval t msg = (v, oe) := ⟨_, _, rfl⟩
    cases oe with
    | some e => exact ⟨e, by simp [step, dataStep, ht, hE]⟩
    | none =>
      have hv : ∀ s : String, v ≠ Msg.str s := by
        rcases hbad with h | h
        · simp [hE] at h
        · simpa [hE] using h
      refine ⟨"couldn't assert url to a string", ?_⟩
      cases v with
      | str s => exact absurd rfl (hv s)
      | null => simp [step, dataStep, ht, hE]
      | bool b => simp [step, dataStep, ht, hE]
      | num n => simp [step, dataStep, ht, hE]
      | arr xs => simp [step, dataStep, ht, hE]
      | obj kvs => simp [step, dataStep, ht, hE]
  obtain ⟨e, he⟩ := key
  refine ⟨e, he, ?_⟩
  intro rest
  have hc : (step lib st (Event.data msg)).ctl = Control.next := by rw [he]
  rw [Run_cons_next lib st _ rest hc, he]
  simp

/-- Witness of C7: on the configured stub block the value at `data.url` is a
number. -/
theorem C7_eval_failure_reports_witness :
    configured.tree = some ["data", "url"] ∧
    ((stubLib.Eval ["data", "url"] numUrlMsg).2.isSome = true ∨
      ∀ s : String, (stubLib.Eval ["data", "url"] numUrlMsg).1 ≠ Msg.str s) ∧
    ∃ e : Err,
      step stubLib configured (Event.data numUrlMsg) =
        ⟨configured, [Effect.error e], Control.next⟩ :=
  have hbad : (stubLib.Eval ["data", "url"] numUrlMsg).2.isSome = true ∨
      ∀ s : String, (stubLib.Eval ["data", "url"] numUrlMsg).1 ≠ Msg.str s :=
    Or.inr (fun s h => Msg.noConfusion (show Msg.num 5 = Msg.str s from h))
  have h := C7_eval_failure_reports stubLib configured numUrlMsg ["data", "url"] rfl hbad
  ⟨rfl, hbad, h.elim (fun e he => ⟨e, he.1⟩)⟩

/-- C9 (as stated) fails: quit has been signaled and one data message is
queued on `b.in`, so two cases of the select can proceed; the select may pick
the data case first, and then the data message is handled and its result
emitted after quit was signaled; only the next iteration receives quit and
returns. -/
theorem C9_counterexample :
    quitAndData.quit = true ∧
    receive Case.quit quitAndData =
      some (Event.quit, { inrule := [], quit := false, inmsg := [okMsg], queryrule := [] }) ∧
    receive Case.inmsg quitAndData =
      some (Event.data okMsg, { inrule := [], quit := true, inmsg := [], queryrule := [] }) ∧
    RunSelect stubLib configured quitAndData [Case.inmsg, Case.quit] =
      some ⟨configured, [Effect.out (Msg.obj [("x", Msg.num 1)])], Status.returned,
        { inrule := [], quit := false, inmsg := [], queryrule := [] }⟩ :=
  ⟨rfl, rfl, rfl, rfl⟩

/-- C9 (amended): for every block state, every contents of the channels and
every sequence of picks of the select that leaves the worker in its loop with
quit signaled: once the select receives quit, `Run` returns on that event with
the state and the effects it had before, nothing is emitted after it, and
every data, rule and query communication still waiting on the channels is left
there unhandled, whatever picks would follow. The same holds of `Run` on a
sequence of delivered events: it returns on the quit event, and the events
after it stay pending. -/
theorem C9_quit_received_returns {Tokens Tree Request Response : Type}
    (lib : Lib Tokens Tree Request Response) (st : State Tree) (ch : Chans)
    (pre post : List Case) (r : SelectResult Tree)
    (h : RunSelect lib st ch pre = some r) (hw : r.status = Status.waiting)
    (hq : r.chans.quit = true) :
    RunSelect lib st ch (pre ++ Case.quit :: post) =
      some ⟨r.state, r.effects, Status.returned,
        { inrule := r.chans.inrule, quit := false, inmsg := r.chans.inmsg,
          queryrule := r.chans.queryrule }⟩ ∧
    (∀ evs later : List Event, (Run lib st evs).status = Status.waiting →
      Run lib st (evs ++ Event.quit :: later) =
        ⟨(Run lib st evs).state, (Run lib st evs).effects, evs.length + 1,
          Status.returned, later⟩) := by
  refine ⟨?_, ?_⟩
  · rw [RunSelect_quit_of_waiting lib pre post st ch r h hw hq]
  · intro evs later hev
    exact Run_quit_of_waiting lib evs later st hev

/-- Witness of C9 (amended): on the configured stub block, with quit signaled
and two data messages queued, the select picks one data message and then
quit; the other data message is left on its channel. -/
theorem C9_quit_received_returns_witness :
    RunSelect stubLib configured
        { inrule := [], quit := true, inmsg := [okMsg, numUrlMsg], queryrule := [3] }
        [Case.inmsg] =
      some ⟨configured, [Effect.out (Msg.obj [("x", Msg.num 1)])], Status.waiting,
        { inrule := [], quit := true, inmsg := [numUrlMsg], queryrule := [3] }⟩ ∧
    RunSelect stubLib configured
        { inrule := [], quit := true, inmsg := [okMsg, numUrlMsg], queryrule := [3] }
        ([Case.inmsg] ++ Case.quit :: [Case.inmsg, Case.queryrule]) =
      some ⟨configured, [Effect.out (Msg.obj [("x", Msg.num 1)])], Status.returned,
        { inrule := [], quit := false, inmsg := [numUrlMsg], queryrule := [3] }⟩ :=
  ⟨rfl,
    (C9_quit_received_returns stubLib configured
      { inrule := [], quit := true, inmsg := [okMsg, numUrlMsg], queryrule := [3] }
      [Case.inmsg] [Case.inmsg, Case.queryrule]
      ⟨configured, [Effect.out (Msg.obj [("x", Msg.num 1)])], Status.waiting,
        { inrule := [], quit := true, inmsg := [numUrlMsg], queryrule := [3] }⟩
      rfl rfl rfl).1⟩

/-- C10: on a configured block with a non-empty header mapping, a data
message whose evaluated URL string cannot be turned into a request
(`http.NewRequest` returns a nil request and an error) is not recovered: the
unchecked nil request is dereferenced by `req.Header.Add`, the iteration
reports no error and ends in a panic, and the loop does not resume. -/
theorem C10_nil_request_panics {Tokens Tree Request Response : Type}
    (lib : Lib Tokens Tree Request Response) (st : State Tree) (msg : Msg) (t : Tree)
    (url : String) (e : Err) (rest : List Event)
    (ht : st.tree = some t) (hE : lib.Eval t msg = (Msg.str url, none))
    (hN : lib.NewRequest "GET" url = (none, some e)) (hh : st.headers ≠ []) :
    step lib st (Event.data msg) = ⟨st, [], Control.panic⟩ ∧
    (Run lib st (Event.data msg :: rest)).status = Status.panicked ∧
    (Run lib st (Event.data msg :: rest)).effects = [] ∧
    (Run lib st (Event.data msg :: rest)).pending = rest := by
  have hs : step lib st (Event.data msg) = ⟨st, [], Control.panic⟩ := by
    obtain ⟨hd, tl, hk⟩ : ∃ hd tl, GoMap.keys st.headers = hd :: tl := by
      cases hq : st.headers with
      | nil => exact absurd hq hh
      | cons a m => exact ⟨a.1, GoMap.keys m, rfl⟩
    simp [step, dataStep, ht, hE, hN, hk]
  refine ⟨hs, ?_⟩
  have hc : (step lib st (Event.data msg)).ctl = Control.panic := by rw [hs]
  rw [Run_cons_panic lib st _ rest hc, hs]
  exact ⟨rfl, rfl, rfl⟩

/-- Witness of C10: the configured stub block holds the header Accept, and
the URL of the data message has a blank in its host. -/
theorem C10_nil_request_panics_witness :
    configured.headers ≠ [] ∧
    stubLib.NewRequest "GET" "http://bad host/" = (none, some "invalid URL") ∧
    step stubLib configured (Event.data badUrlMsg) = ⟨configured, [], Control.panic⟩ :=
  have hh : configured.headers ≠ [] := by decide
  ⟨hh, rfl,
    (C10_nil_request_panics stubLib configured badUrlMsg ["data", "url"] "http://bad host/"
      "invalid URL" [] rfl rfl rfl hh).1⟩

end library
